import Mathlib

/-!
Verification development for the aircraft-allocation-map repository.

The development shallowly embeds the time-interval allocation core:

* the client overlap check (src/hooks/useOverlapValidation.ts),
* the allocation dialog validation and submit path
  (src/components/AllocationDialog.tsx),
* the point-in-time and range queries (src/hooks/useAllocations.ts), and
* the database exclusion constraint no_overlapping_periods
  (supabase migration, unnamed/part_008).

Timestamps are modelled as Int milliseconds.  Luxon DateTime values are
modelled as Option Int: none is an Invalid DateTime.  ISO-string parsing
(luxon DateTime.fromISO) is kept abstract as a parameter, since the
claims never depend on the concrete grammar of ISO strings, only on
whether a string parses and to which instant.
-/

set_option linter.unusedVariables false

namespace AircraftAlloc

/-! ## Luxon DateTime model -/

/-- A luxon DateTime: some ms when valid, none when invalid.  The valueOf
of an invalid DateTime is NaN, so every relational comparison involving
an invalid DateTime is false. -/
abbrev DT := Option Int

/-- Luxon MAX_DATE (src/impl/util.js): 8.64e15 ms, the largest timestamp
representable by a JS Date. -/
def LUXON_MAX_DATE : Int := 8640000000000000

/-- JS Number.MAX_SAFE_INTEGER = 2^53 - 1.  Note that this exceeds
LUXON_MAX_DATE. -/
def MAX_SAFE_INTEGER : Int := 9007199254740991

/-- Luxon DateTime.fromMillis: returns an Invalid DateTime when the
timestamp is out of the representable range, otherwise a valid value. -/
def fromMillis (ms : Int) : DT :=
  if ms < -LUXON_MAX_DATE ∨ LUXON_MAX_DATE < ms then none else some ms

/-- The JS relational operator a < b on DateTimes: compares valueOf, and
any comparison with NaN (an invalid DateTime) is false. -/
def dtLt (a b : DT) : Bool :=
  match a, b with
  | some x, some y => decide (x < y)
  | _, _ => false

/-- The JS relational operator a > b on DateTimes. -/
def dtGt (a b : DT) : Bool := dtLt b a

/-- The ambient luxon functionality the hook uses: ISO parsing and the
toFormat call used only to build the human-readable conflict message. -/
structure LuxonEnv where
  fromISO : String → DT
  toFormatHM : DT → String

/-! ## Records seen by the client (rows of allocations_with_ground_time) -/

/-- The fields of an AllocationWithGroundTime row that the overlap check
reads.  Timestamps arrive as ISO strings; period_end is null or a string
(an empty string is falsy in JS and is treated like null by the hook). -/
structure AllocationRec where
  id : String
  tail_number : String
  station_iata : String
  period_start : String
  period_end : Option String
deriving Repr, DecidableEq

/-- The conflictingAllocation payload of an overlap-check result. -/
structure ConflictingAllocation where
  id : String
  station_iata : String
  period_start : String
  period_end : Option String
deriving Repr, DecidableEq

/-- OverlapCheckResult (src/types/database.ts). -/
structure OverlapCheckResult where
  hasOverlap : Bool
  message : Option String
  conflictingAllocation : Option ConflictingAllocation
deriving Repr, DecidableEq

/-- The result every early-return branch of the hook produces. -/
def noOverlapResult : OverlapCheckResult := ⟨false, none, none⟩

/-- JS falsiness of a string-or-null value: null and the empty string are
falsy. -/
def jsFalsy (s : Option String) : Bool :=
  match s with
  | none => true
  | some t => t == ""

/-- The existingEnd computed per allocation inside the loop:
alloc.period_end ? DateTime.fromISO(alloc.period_end) : null. -/
def existingEndOf (js : LuxonEnv) (a : AllocationRec) : Option DT :=
  match a.period_end with
  | none => none
  | some pe => if pe == "" then none else some (js.fromISO pe)

/-- The overlaps condition of useOverlapValidation, verbatim:
newStart < (existingEnd ?? DateTime.fromMillis(Number.MAX_SAFE_INTEGER))
and (newEnd === null or newEnd > existingStart). -/
def overlapsB (js : LuxonEnv) (newStart : DT) (newEnd : Option DT)
    (a : AllocationRec) : Bool :=
  dtLt newStart ((existingEndOf js a).getD (fromMillis MAX_SAFE_INTEGER)) &&
    (match newEnd with
     | none => true
     | some d => dtGt d (js.fromISO a.period_start))

/-- The conflict message built by the hook. -/
def overlapMessage (js : LuxonEnv) (a : AllocationRec) : String :=
  "Overlaps with allocation at " ++ a.station_iata ++ " (" ++
    js.toFormatHM (js.fromISO a.period_start) ++ " - " ++
    (match existingEndOf js a with
     | none => "ongoing"
     | some e => js.toFormatHM e) ++ ")"

/-- The for-loop of useOverlapValidation: returns on the first
conflicting allocation, otherwise falls through to the no-overlap
result. -/
def checkLoop (js : LuxonEnv) (newStart : DT) (newEnd : Option DT) :
    List AllocationRec → OverlapCheckResult
  | [] => noOverlapResult
  | a :: rest =>
    if overlapsB js newStart newEnd a then
      ⟨true, some (overlapMessage js a),
        some ⟨a.id, a.station_iata, a.period_start, a.period_end⟩⟩
    else checkLoop js newStart newEnd rest

/-- The filter of useOverlapValidation: same aircraft, excluding self
when editing. -/
def keepsRec (tailNumber : String) (excludeId : Option String)
    (a : AllocationRec) : Bool :=
  a.tail_number == tailNumber &&
    (match excludeId with
     | none => true
     | some e => !(a.id == e))

/-- useOverlapValidation (src/hooks/useOverlapValidation.ts), with the
luxon environment explicit. -/
def useOverlapValidation (js : LuxonEnv) (tailNumber : String)
    (periodStart periodEnd : Option String)
    (existingAllocations : Option (List AllocationRec))
    (excludeId : Option String) : OverlapCheckResult :=
  if jsFalsy periodStart || existingAllocations.isNone || tailNumber == "" then
    noOverlapResult
  else
    let newStart := js.fromISO (periodStart.getD "")
    if newStart.isNone then noOverlapResult
    else
      let newEnd : Option DT :=
        match periodEnd with
        | none => none
        | some pe => if pe == "" then none else some (js.fromISO pe)
      let otherAllocations :=
        (existingAllocations.getD []).filter (keepsRec tailNumber excludeId)
      checkLoop js newStart newEnd otherAllocations

/-! ## The spec-side pairwise overlap predicate (for comparison) -/

/-- Modelled from the spec: the design-level overlap predicate.  Two
half-open intervals with end treated as plus infinity when null overlap
iff start_A < end_B and start_B < end_A.  This definition follows the
spec wording and is compared against the code above. -/
def specPairConflict (candStart : Int) (candEnd : Option Int)
    (exStart : Int) (exEnd : Option Int) : Bool :=
  (match exEnd with
   | none => true
   | some e => decide (candStart < e)) &&
  (match candEnd with
   | none => true
   | some e => decide (exStart < e))

/-! ## Postgres model: tstzrange and the exclusion constraint -/

/-- A Postgres tstzrange value with canonical bounds: either empty or a
half-open interval with an optional (unbounded when none) upper bound. -/
inductive PgRange where
  | empty : PgRange
  | interval (lo : Int) (hi : Option Int) : PgRange
deriving Repr, DecidableEq

/-- tstzrange(lo, hi, [) ): raises an error when the lower bound exceeds
the upper bound, is empty when they coincide. -/
def tstzrange (lo : Int) (hi : Option Int) : Except String PgRange :=
  match hi with
  | none => .ok (.interval lo none)
  | some h =>
    if h < lo then
      .error "range lower bound must be less than or equal to range upper bound"
    else if h = lo then .ok .empty
    else .ok (.interval lo (some h))

/-- The range overlap operator.  An empty range overlaps nothing; two
half-open intervals overlap iff each starts before the other ends. -/
def rangeOverlap : PgRange → PgRange → Bool
  | .empty, _ => false
  | _, .empty => false
  | .interval a b, .interval c d =>
    (match d with
     | none => true
     | some dd => decide (a < dd)) &&
    (match b with
     | none => true
     | some bb => decide (c < bb))

/-- A committed row of aircraft_allocations, with parsed timestamps. -/
structure DbRow where
  id : String
  tail_number : String
  station_iata : String
  carrier_id : String
  period_start : Int
  period_end : Option Int
deriving Repr, DecidableEq

/-- Outcome of one INSERT under the no_overlapping_periods constraint. -/
inductive InsertResult where
  | ok (newState : List DbRow)
  | overlapConflict (conflicting : DbRow)
  | rangeError
deriving Repr, DecidableEq

/-- The tstzrange of a row, as built by the exclusion constraint. -/
def rowRange (r : DbRow) : Except String PgRange :=
  tstzrange r.period_start r.period_end

/-- The exclusion-constraint predicate: same tail number and overlapping
periods. -/
def conflictsWith (r x : DbRow) : Bool :=
  x.tail_number == r.tail_number &&
    (match rowRange x, rowRange r with
     | .ok rx, .ok rr => rangeOverlap rx rr
     | _, _ => false)

/-- One INSERT into aircraft_allocations.  The check against the
committed state and the write are a single atomic step: this is the
semantics of the database-level EXCLUDE constraint, which Postgres
enforces atomically with respect to concurrent writers. -/
def dbInsert (σ : List DbRow) (r : DbRow) : InsertResult :=
  match rowRange r with
  | .error _ => .rangeError
  | .ok _ =>
    match σ.find? (conflictsWith r) with
    | some c => .overlapConflict c
    | none => .ok (σ ++ [r])

/-! ## AllocationDialog: validate and the submit path -/

/-- The inputs read by the validate closure of AllocationDialog. -/
structure ValidateInput where
  needsStationSelection : Bool
  selectedStation : String
  carrier_id : String
  tail_number : String
  period_start : String
  overlapCheck : OverlapCheckResult
deriving Repr, DecidableEq

/-- Whitespace as stripped by the JS string trim (the common ASCII
whitespace characters suffice for every claim). -/
def jsWhitespace (c : Char) : Bool :=
  c == ' ' || c == '\t' || c == '\n' || c == '\r'

/-- The JS String.prototype.trim: strip whitespace from both ends. -/
def jsTrim (s : String) : String :=
  String.mk (((s.toList.dropWhile jsWhitespace).reverse.dropWhile
    jsWhitespace).reverse)

/-- The keys of the newErrors object produced by validate
(src/components/AllocationDialog.tsx).  The period_start key is set when
the start is absent or when the overlap check reports a conflict; there
is no check relating period_end to period_start. -/
def validateErrors (v : ValidateInput) : List String :=
  (if v.needsStationSelection && v.selectedStation == "" then ["station"] else []) ++
  (if v.carrier_id == "" then ["carrier_id"] else []) ++
  (if jsTrim v.tail_number == "" then ["tail_number"] else []) ++
  (if v.period_start == "" || v.overlapCheck.hasOverlap then ["period_start"] else [])

/-- validate returns true iff newErrors stayed empty. -/
def validate (v : ValidateInput) : Bool := validateErrors v == []

/-- Outcome of handleSubmit as seen by the user. -/
inductive SubmitResult where
  | validationError (fields : List String)
  | committed (newState : List DbRow)
  | overlapConflictMessage
  | genericSubmitError
deriving Repr, DecidableEq

/-- The submit path of AllocationDialog: client validation first, then
the insert.  A database error whose message names the exclusion
constraint is mapped to the period_start field; any other database error
(such as the range-construction error raised when the upper bound is
below the lower) is surfaced as a generic submit error. -/
def submitAllocation (v : ValidateInput) (σ : List DbRow) (r : DbRow) :
    SubmitResult :=
  if validate v then
    match dbInsert σ r with
    | .ok σ2 => .committed σ2
    | .overlapConflict _ => .overlapConflictMessage
    | .rangeError => .genericSubmitError
  else .validationError (validateErrors v)

/-! ## Database tables and the query hooks of useAllocations.ts -/

/-- A row of the carriers table (fields read by the summary query). -/
structure Carrier where
  id : String
  name : String
  color : String
deriving Repr, DecidableEq

/-- A row of the airports table.  The lat and lng columns are opaque
numeric payload for every claim and are modelled as Int. -/
structure Airport where
  iata_code : String
  name : String
  lat : Int
  lng : Int
  total_spots : Option Int
deriving Repr, DecidableEq

/-- The database state the queries read.  groundTimeMinutes models the
SQL function compute_ground_time_minutes used by the
allocations_with_ground_time view; its definition is not part of the
repository and its value is opaque to every claim. -/
structure Db where
  allocations : List DbRow
  carriers : List Carrier
  airports : List Airport
  groundTimeMinutes : DbRow → Int

/-- Carrier lookup by primary key: models both the nested carriers
select of the summary query and the inner JOIN of the view. -/
def carrierOf (db : Db) (a : DbRow) : Option Carrier :=
  db.carriers.find? fun c => c.id == a.carrier_id

/-- Airport lookup by primary key. -/
def airportOf (db : Db) (s : String) : Option Airport :=
  db.airports.find? fun ap => ap.iata_code == s

/-- A row of the allocations_with_ground_time view. -/
structure ViewRow where
  row : DbRow
  carrier_name : String
  carrier_color : String
  airport_name : String
  ground_time_minutes : Int
deriving Repr, DecidableEq

/-- One view row of an allocation, when both joins succeed. -/
def viewRowOf (db : Db) (a : DbRow) : Option ViewRow :=
  match carrierOf db a, airportOf db a.station_iata with
  | some c, some ap =>
    some ⟨a, c.name, c.color, ap.name, db.groundTimeMinutes a⟩
  | _, _ => none

/-- The allocations_with_ground_time view: aircraft_allocations inner
joined with carriers and airports (unnamed/part_008, step 8). -/
def viewRows (db : Db) : List ViewRow :=
  db.allocations.filterMap (viewRowOf db)

/-- The time filter of the useAllocationSummary query:
lte(period_start, timeISO) and or(period_end.is.null, period_end.gt.timeISO). -/
def summaryActiveFilter (t : Int) (a : DbRow) : Bool :=
  decide (a.period_start ≤ t) &&
    (match a.period_end with
     | none => true
     | some e => decide (t < e))

/-- The time filter of the useStationAllocations query:
lte(period_start, timeISO) and or(period_end.is.null, period_end.gt.timeISO). -/
def stationActiveFilter (t : Int) (a : DbRow) : Bool :=
  decide (a.period_start ≤ t) &&
    (match a.period_end with
     | none => true
     | some e => decide (t < e))

/-- Stable insertion of one element into a list sorted descending by an
integer key: the element lands after every earlier element whose key is
greater than or equal, matching a stable JS Array.sort with comparator
(a, b) => key(b) - key(a). -/
def insertDescBy {α : Type} (key : α → Int) (x : α) : List α → List α
  | [] => [x]
  | y :: ys => if key y < key x then x :: y :: ys else y :: insertDescBy key x ys

/-- Stable sort, descending by an integer key. -/
def sortDescBy {α : Type} (key : α → Int) : List α → List α
  | [] => []
  | x :: xs => insertDescBy key x (sortDescBy key xs)

/-- useStationAllocations (src/hooks/useAllocations.ts): rows of the
view at one station, filtered to the allocations active at the view
time, ordered by ground time descending. -/
def useStationAllocations (db : Db) (stationIata : String) (t : Int) :
    List ViewRow :=
  sortDescBy (fun r => r.ground_time_minutes)
    ((viewRows db).filter fun r =>
      r.row.station_iata == stationIata && stationActiveFilter t r.row)

/-- The optional filters of useAllocationsInRange. -/
structure RangeFilters where
  carrierIds : Option (List String)
  stationIatas : Option (List String)
  tailNumber : Option String
deriving Repr, DecidableEq

/-- The query with no optional filters. -/
def noFilters : RangeFilters := ⟨none, none, none⟩

/-- Case-insensitive substring test, modelling ilike with a pattern
wrapped in percent signs. -/
def containsCI (hay pat : String) : Bool :=
  ((hay.toLower).splitOn pat.toLower).length != 1

/-- The windowing filter of useAllocationsInRange:
lt(period_start, endISO) and or(period_end.is.null, period_end.gt.startISO). -/
def rangeBaseFilter (startMs endMs : Int) (a : DbRow) : Bool :=
  decide (a.period_start < endMs) &&
    (match a.period_end with
     | none => true
     | some e => decide (startMs < e))

/-- The optional in-list and ilike filters, each applied only when
provided and nonempty. -/
def applyRangeFilters (f : RangeFilters) (r : ViewRow) : Bool :=
  (match f.carrierIds with
   | none => true
   | some [] => true
   | some ids => ids.contains r.row.carrier_id) &&
  (match f.stationIatas with
   | none => true
   | some [] => true
   | some ss => ss.contains r.row.station_iata) &&
  (match f.tailNumber with
   | none => true
   | some p => if p == "" then true else containsCI r.row.tail_number p)

/-- useAllocationsInRange (src/hooks/useAllocations.ts): view rows whose
interval overlaps the window, with optional filters, ordered by
period_start descending.  The window bounds are the day-rounded instants
the hook passes to the query. -/
def useAllocationsInRange (db : Db) (startMs endMs : Int)
    (f : RangeFilters) : List ViewRow :=
  sortDescBy (fun r => r.row.period_start)
    ((viewRows db).filter fun r =>
      rangeBaseFilter startMs endMs r.row && applyRangeFilters f r)

/-! ## The summary aggregation of useAllocationSummary -/

/-- A JS Map with string keys: association list in insertion order. -/
abbrev JsMap (β : Type) := List (String × β)

/-- Map.get. -/
def mapGet {β : Type} (m : JsMap β) (k : String) : Option β :=
  (m.find? fun p => p.1 == k).map (·.2)

/-- Map.set: overwrites in place when the key exists, appends
otherwise. -/
def mapSet {β : Type} (m : JsMap β) (k : String) (v : β) : JsMap β :=
  match m with
  | [] => [(k, v)]
  | p :: rest => if p.1 == k then (k, v) :: rest else p :: mapSet rest k v

/-- The per-station carrier map: carrier id to the first-seen carrier
object and its running count. -/
abbrev CMap := List (String × Carrier × Nat)

/-- One allocation of a carrier: set count 0 when absent, then
increment. -/
def bumpCM : CMap → Carrier → CMap
  | [], c => [(c.id, c, 1)]
  | (k, c0, n) :: rest, c =>
    if k == c.id then (k, c0, n + 1) :: rest else (k, c0, n) :: bumpCM rest c

/-- The stationCarrierCounts map. -/
abbrev SCC := JsMap CMap

/-- Record one allocation under its station. -/
def bumpSCC : SCC → String → Carrier → SCC
  | [], s, c => [(s, bumpCM [] c)]
  | (k, cm) :: rest, s, c =>
    if k == s then (k, bumpCM cm c) :: rest else (k, cm) :: bumpSCC rest s c

/-- One step of the aggregation loop: allocations whose carriers join
produced no carrier are skipped. -/
def sccStep (db : Db) (scc : SCC) (a : DbRow) : SCC :=
  match carrierOf db a with
  | none => scc
  | some c => bumpSCC scc a.station_iata c

/-- The aggregation loop of useAllocationSummary: every active
allocation whose carriers join produced a carrier is counted under its
station and carrier; the others are skipped. -/
def buildSCC (db : Db) (t : Int) : SCC :=
  (db.allocations.filter (summaryActiveFilter t)).foldl (sccStep db) []

/-- CarrierBreakdown (src/types/database.ts). -/
structure CarrierBreakdown where
  carrier_id : String
  carrier_name : String
  carrier_color : String
  count : Nat
deriving Repr, DecidableEq

/-- AllocationSummary as built by useAllocationSummary. -/
structure AllocationSummary where
  station_iata : String
  total_count : Nat
  carrier_breakdown : List CarrierBreakdown
  airport_name : String
  lat : Int
  lng : Int
  total_spots : Option Int
deriving Repr, DecidableEq

/-- The zero-count summary every airport row starts from. -/
def initialSummary (ap : Airport) : AllocationSummary :=
  ⟨ap.iata_code, 0, [], ap.name, ap.lat, ap.lng, ap.total_spots⟩

/-- The breakdown array pushed from one carrier map, in iteration
order. -/
def cmBreakdown (cm : CMap) : List CarrierBreakdown :=
  cm.map fun e => ⟨e.2.1.id, e.2.1.name, e.2.1.color, e.2.2⟩

/-- The running total accumulated alongside the breakdown. -/
def cmTotal (cm : CMap) : Nat := (cm.map fun e => e.2.2).sum

/-- The update applied to the summary of one station: total and the
breakdown sorted by count descending. -/
def updateSummary (summ : AllocationSummary) (cm : CMap) : AllocationSummary :=
  { summ with
    total_count := cmTotal cm,
    carrier_breakdown := sortDescBy (fun b => Int.ofNat b.count) (cmBreakdown cm) }

/-- The second forEach of useAllocationSummary: stations missing from
the summary map (not in the airports table) are dropped. -/
def applyStationCounts (m : JsMap AllocationSummary) (s : String)
    (cm : CMap) : JsMap AllocationSummary :=
  match mapGet m s with
  | none => m
  | some summ => mapSet m s (updateSummary summ cm)

/-- The airport initialisation pass of useAllocationSummary. -/
def initSummaryMap (airports : List Airport) : JsMap AllocationSummary :=
  airports.foldl (fun m ap => mapSet m ap.iata_code (initialSummary ap)) []

/-- useAllocationSummary (src/hooks/useAllocations.ts): initialise one
zero summary per airport row, then fill in the aggregated counts. -/
def useAllocationSummary (db : Db) (t : Int) : JsMap AllocationSummary :=
  (buildSCC db t).foldl (fun m p => applyStationCounts m p.1 p.2)
    (initSummaryMap db.airports)

/-! ## Concrete fixtures used by closed theorems and witnesses -/

/-- A concrete table of parseable ISO strings and their instants, used
to instantiate the abstract luxon parser in closed theorems.  The
integers only need to respect chronological order. -/
def demoTimes : List (String × Int) :=
  [("2026-01-01T09:00", 10900), ("2026-01-01T12:00", 11200),
   ("2026-01-01T14:00", 11400),
   ("2026-02-03T08:00", 20800), ("2026-02-03T10:00", 21000),
   ("2026-02-03T11:00", 21100),
   ("2026-01-22T09:00", 30900), ("2026-01-22T17:00", 31700),
   ("2026-01-22T17:30", 31730), ("2026-01-22T18:00", 31800),
   ("2026-01-22T19:00", 31900), ("2026-01-22T21:00", 32100)]

/-- A concrete luxon environment: strings in the table parse to their
instant, everything else is invalid. -/
def demoJs : LuxonEnv :=
  ⟨fun s => (demoTimes.find? fun p => p.1 == s).map (·.2), fun _ => "t"⟩

/-- Existing open-ended allocation of the C2 scenario. -/
def c2Existing : AllocationRec :=
  ⟨"a1", "N123AB", "DFW", "2026-01-01T09:00", none⟩

/-- The same open-ended allocation as a committed database row. -/
def c2RowOpen : DbRow := ⟨"a1", "N123AB", "DFW", "c1", 10900, none⟩

/-- The later candidate of the C2 scenario as a database row. -/
def c2RowNew : DbRow := ⟨"a2", "N123AB", "ORD", "c1", 11200, some 11400⟩

/-- Existing open-ended allocation used for the C1 counterexample. -/
def c1Existing : AllocationRec :=
  ⟨"b1", "N77", "CLT", "2026-02-03T08:00", none⟩

/-- Existing allocation 09:00 to 17:00 of the touching scenario. -/
def c5Existing917 : AllocationRec :=
  ⟨"d1", "N123AB", "DFW", "2026-01-22T09:00", some "2026-01-22T17:00"⟩

/-- Existing allocation 17:00 to 21:00 of the touching scenario. -/
def c5Existing1721 : AllocationRec :=
  ⟨"d2", "N123AB", "CLT", "2026-01-22T17:00", some "2026-01-22T21:00"⟩

/-- The touching scenario rows as database rows. -/
def c5Row917 : DbRow := ⟨"d1", "N123AB", "DFW", "c1", 30900, some 31700⟩

/-- Second row of the touching scenario. -/
def c5Row1721 : DbRow := ⟨"d2", "N123AB", "CLT", "c1", 31700, some 32100⟩

/-! ## Helper lemmas -/

/-- Filtering first by a weaker predicate does not change the result of
a stronger filter. -/
theorem filter_filter_of_imp {α : Type} {p q : α → Bool}
    (h : ∀ a, p a = true → q a = true) :
    ∀ l : List α, (l.filter q).filter p = l.filter p := by
  intro l
  induction l with
  | nil => rfl
  | cons a l ih =>
    by_cases hq : q a = true
    · by_cases hp : p a = true <;> simp [List.filter_cons, hq, hp, ih]
    · have hp : p a = false := by
        cases hpa : p a
        · rfl
        · exact absurd (h a hpa) hq
      simp [List.filter_cons, hq, hp, ih]

/-- find? over an append whose first part has no hit. -/
theorem find?_append_of_none {α : Type} {p : α → Bool} {l1 : List α}
    (l2 : List α) (h : l1.find? p = none) :
    (l1 ++ l2).find? p = l2.find? p := by
  induction l1 with
  | nil => rfl
  | cons a l ih =>
    cases hpa : p a
    · rw [List.find?_cons_of_neg _ (by simp [hpa])] at h
      rw [List.cons_append, List.find?_cons_of_neg _ (by simp [hpa])]
      exact ih h
    · rw [List.find?_cons_of_pos _ hpa] at h
      exact absurd h (by simp)

/-- An empty range overlaps nothing on the right. -/
theorem rangeOverlap_empty_right (x : PgRange) :
    rangeOverlap x .empty = false := by
  cases x <;> rfl

/-- The range overlap operator is symmetric. -/
theorem rangeOverlap_symm (x y : PgRange) :
    rangeOverlap x y = rangeOverlap y x := by
  cases x with
  | empty => cases y <;> rfl
  | interval a b =>
    cases y with
    | empty => rfl
    | interval c d => cases b <;> cases d <;> simp [rangeOverlap, Bool.and_comm]

/-! ## Claims C1, C2: the open-ended-existing bug in the client check -/

/-- Claim C1 (code bug): the client overlap check does not report a
conflict for every pair satisfying the spec predicate.  When the
existing allocation is open ended, the code compares newStart against
DateTime.fromMillis(Number.MAX_SAFE_INTEGER); that timestamp exceeds the
luxon maximum of 8.64e15 ms, so the value is an Invalid DateTime and the
comparison is always false.  Concretely, candidate 10:00 to 11:00
against an existing open-ended allocation started at 08:00 of the same
aircraft satisfies the pairwise predicate yet yields hasOverlap =
false. -/
theorem C1_pairwise_conflict_not_reported :
    specPairConflict 21000 (some 21100) 20800 none = true ∧
    (useOverlapValidation demoJs "N77" (some "2026-02-03T10:00")
        (some "2026-02-03T11:00") (some [c1Existing]) none).hasOverlap = false := by
  decide

/-- Claim C2 (code bug): creating 12:00 to 14:00 after an open-ended
allocation started 09:00 must be flagged, and the spec predicate holds,
but the hook returns the no-overlap result for the reason documented at
C1.  The database exclusion constraint still rejects the insert, so the
create fails at submit rather than at the client check. -/
theorem C2_open_ended_conflict_missed_by_hook :
    useOverlapValidation demoJs "N123AB" (some "2026-01-01T12:00")
        (some "2026-01-01T14:00") (some [c2Existing]) none = noOverlapResult ∧
    specPairConflict 11200 (some 11400) 10900 none = true ∧
    dbInsert [c2RowOpen] c2RowNew = .overlapConflict c2RowOpen := by
  decide

/-! ## Claim C5: touching intervals are accepted -/

/-- Claim C5: intervals that merely touch do not conflict.  In general,
a candidate starting at or after a valid existing end is never flagged,
and a candidate ending at or before a valid existing start is never
flagged; concretely, for existing 09:00 to 17:00 the candidate 17:00 to
21:00 produces no overlap in either order, and the database accepts
back-to-back rows in either insertion order. -/
theorem C5_touching_intervals_accepted :
    (∀ (js : LuxonEnv) (ns : DT) (ne : Option DT) (a : AllocationRec)
        (cs e2 : Int), ns = some cs → existingEndOf js a = some (some e2) →
        e2 ≤ cs → overlapsB js ns ne a = false) ∧
    (∀ (js : LuxonEnv) (ns : DT) (a : AllocationRec) (es ce : Int),
        js.fromISO a.period_start = some es → ce ≤ es →
        overlapsB js ns (some (some ce)) a = false) ∧
    useOverlapValidation demoJs "N123AB" (some "2026-01-22T17:00")
        (some "2026-01-22T21:00") (some [c5Existing917]) none = noOverlapResult ∧
    useOverlapValidation demoJs "N123AB" (some "2026-01-22T09:00")
        (some "2026-01-22T17:00") (some [c5Existing1721]) none = noOverlapResult ∧
    dbInsert [c5Row917] c5Row1721 = .ok [c5Row917, c5Row1721] ∧
    dbInsert [c5Row1721] c5Row917 = .ok [c5Row1721, c5Row917] := by
  refine ⟨?_, ?_, by decide, by decide, by decide, by decide⟩
  · intro js ns ne a cs e2 hns hee hle
    subst hns
    have h1 : dtLt (some cs)
        ((existingEndOf js a).getD (fromMillis MAX_SAFE_INTEGER)) = false := by
      rw [hee]
      simp only [Option.getD_some, dtLt, decide_eq_false_iff_not]
      omega
    simp [overlapsB, h1]
  · intro js ns a es ce hps hle
    have h2 : dtGt (some ce) (js.fromISO a.period_start) = false := by
      rw [hps]
      simp only [dtGt, dtLt, decide_eq_false_iff_not]
      omega
    simp [overlapsB, h2]

/-- Witness for C5: the general touching lemmas applied at the concrete
boundary instants of the scenario. -/
theorem C5_touching_witness :
    overlapsB demoJs (some 31700) none c5Existing917 = false ∧
    overlapsB demoJs (some 30000) (some (some 30900)) c5Existing917 = false :=
  ⟨C5_touching_intervals_accepted.1 demoJs (some 31700) none c5Existing917
      31700 31700 rfl (by decide) (by decide),
   C5_touching_intervals_accepted.2.1 demoJs (some 30000) c5Existing917
      30900 30900 (by decide) (by decide)⟩

/-! ## Claim C9: malformed or incomplete input is never a conflict -/

/-- Claim C9: whenever periodStart is null or empty, the existing list
is undefined, the tail number is empty, or periodStart does not parse,
the hook returns hasOverlap = false with a null message. -/
theorem C9_malformed_input_no_conflict (js : LuxonEnv) (tailNumber : String)
    (periodStart periodEnd : Option String)
    (ea : Option (List AllocationRec)) (ex : Option String)
    (h : periodStart = none ∨ periodStart = some "" ∨ ea = none ∨
        tailNumber = "" ∨ ∃ s, periodStart = some s ∧ js.fromISO s = none) :
    useOverlapValidation js tailNumber periodStart periodEnd ea ex =
      noOverlapResult := by
  rcases h with h | h | h | h | ⟨s, hs, hparse⟩
  · subst h; simp [useOverlapValidation, jsFalsy]
  · subst h; simp [useOverlapValidation, jsFalsy]
  · subst h; simp [useOverlapValidation]
  · subst h; simp [useOverlapValidation]
  · subst hs
    by_cases hse : s = ""
    · subst hse; simp [useOverlapValidation, jsFalsy]
    · have hb : (s == "") = false := by simp [hse]
      simp [useOverlapValidation, jsFalsy, hb, hparse]

/-- Witness for C9 at a concrete malformed input. -/
theorem C9_malformed_witness :
    useOverlapValidation demoJs "N1" none none (some []) none =
      noOverlapResult :=
  C9_malformed_input_no_conflict demoJs "N1" none none (some []) none
    (Or.inl rfl)

/-! ## Claim C6: update excludes self from the conflict search -/

/-- Record R of the self-exclusion scenario, stored 09:00 to 17:00. -/
def c6RecordR : AllocationRec :=
  ⟨"r1", "N500", "DFW", "2026-01-22T09:00", some "2026-01-22T17:00"⟩

/-- Another allocation of the same aircraft, 17:30 to 19:00. -/
def c6OtherS : AllocationRec :=
  ⟨"s9", "N500", "CLT", "2026-01-22T17:30", some "2026-01-22T19:00"⟩

/-- Claim C6: with excludeId set, records carrying that id never affect
the result (removing them from the existing list changes nothing);
concretely, extending R from 17:00 to 18:00 passes the check against a
list containing R itself, while a genuine conflict with another
allocation of the aircraft is still reported. -/
theorem C6_update_excludes_self :
    (∀ (js : LuxonEnv) (tail : String) (ps pe : Option String)
        (L : List AllocationRec) (rid : String),
        useOverlapValidation js tail ps pe (some L) (some rid) =
        useOverlapValidation js tail ps pe
          (some (L.filter fun a => !(a.id == rid))) (some rid)) ∧
    useOverlapValidation demoJs "N500" (some "2026-01-22T09:00")
        (some "2026-01-22T18:00") (some [c6RecordR]) (some "r1") =
      noOverlapResult ∧
    (useOverlapValidation demoJs "N500" (some "2026-01-22T09:00")
        (some "2026-01-22T18:00") (some [c6RecordR, c6OtherS])
        (some "r1")).hasOverlap = true ∧
    (useOverlapValidation demoJs "N500" (some "2026-01-22T09:00")
        (some "2026-01-22T18:00") (some [c6RecordR, c6OtherS])
        (some "r1")).conflictingAllocation =
      some ⟨"s9", "CLT", "2026-01-22T17:30", some "2026-01-22T19:00"⟩ := by
  refine ⟨?_, by decide, by decide, by decide⟩
  intro js tail ps pe L rid
  have hk : ∀ a : AllocationRec, keepsRec tail (some rid) a = true →
      (!(a.id == rid)) = true := by
    intro a ha
    unfold keepsRec at ha
    exact ((Bool.and_eq_true _ _).mp ha).2
  unfold useOverlapValidation
  simp only [Option.isNone_some, Bool.or_false, Option.getD_some]
  rw [filter_filter_of_imp hk L]

/-! ## Claim C3: the end-after-start precondition -/

/-- The dialog state of the C3 counterexample: a filled form whose start
and end coincide, with the overlap check wired exactly as the dialog
wires it. -/
def c3Form : ValidateInput :=
  ⟨false, "", "c1", "N9", "2026-01-22T09:00",
    useOverlapValidation demoJs "N9" (some "2026-01-22T09:00")
      (some "2026-01-22T09:00") (some []) none⟩

/-- The submitted row of the C3 counterexample: period_end equals
period_start. -/
def c3Row : DbRow := ⟨"x1", "N9", "DFW", "c1", 30900, some 30900⟩

/-- Claim C3 counterexample: a Create whose period_end is present and
equal to period_start is not rejected anywhere.  Client validation has
no end-after-start check, and the exclusion constraint builds an empty
range that conflicts with nothing, so the row commits. -/
theorem C3_equal_bounds_commit :
    c3Row.period_end = some c3Row.period_start ∧
    validate c3Form = true ∧
    submitAllocation c3Form [] c3Row = .committed [c3Row] := by
  decide

/-- Claim C3 as amended: an absent period_start is rejected as a
field-level validation error; a period_end strictly below period_start
passes client validation but fails at the database with a
range-construction error surfaced as a generic submit error; a
period_end equal to period_start passes validation and commits, because
its range is empty and conflicts with nothing. -/
theorem C3_amended_validation_behaviour :
    (∀ v : ValidateInput, v.period_start = "" →
        validate v = false ∧ "period_start" ∈ validateErrors v) ∧
    (∀ (σ : List DbRow) (r : DbRow) (e : Int),
        r.period_end = some e → e < r.period_start →
        dbInsert σ r = .rangeError) ∧
    (∀ (v : ValidateInput) (σ : List DbRow) (r : DbRow) (e : Int),
        validate v = true → r.period_end = some e → e < r.period_start →
        submitAllocation v σ r = .genericSubmitError) ∧
    (∀ (σ : List DbRow) (r : DbRow), r.period_end = some r.period_start →
        dbInsert σ r = .ok (σ ++ [r])) := by
  have hrange : ∀ (σ : List DbRow) (r : DbRow) (e : Int),
      r.period_end = some e → e < r.period_start →
      dbInsert σ r = .rangeError := by
    intro σ r e hpe hlt
    unfold dbInsert rowRange tstzrange
    rw [hpe]
    simp [hlt]
  refine ⟨?_, hrange, ?_, ?_⟩
  · intro v hps
    have hmem : "period_start" ∈ validateErrors v := by
      unfold validateErrors
      rw [hps]
      simp
    refine ⟨?_, hmem⟩
    have hne : validateErrors v ≠ [] := List.ne_nil_of_mem hmem
    unfold validate
    exact beq_eq_false_iff_ne.mpr hne
  · intro v σ r e hv hpe hlt
    unfold submitAllocation
    rw [hv, hrange σ r e hpe hlt]
    simp
  · intro σ r hpe
    have hempty : rowRange r = .ok .empty := by
      unfold rowRange tstzrange
      rw [hpe]
      simp
    have hfind : σ.find? (conflictsWith r) = none := by
      rw [List.find?_eq_none]
      intro x hx
      simp only [conflictsWith, hempty]
      cases hrx : rowRange x
      · simp
      · simp [rangeOverlap_empty_right]
    unfold dbInsert
    rw [hempty, hfind]

/-- Witness for the amended C3 at concrete inputs. -/
theorem C3_amended_witness :
    validate ⟨false, "DFW", "c1", "N9", "", noOverlapResult⟩ = false ∧
    dbInsert [] ⟨"y1", "N9", "DFW", "c1", 500, some 400⟩ = .rangeError ∧
    dbInsert [] ⟨"y2", "N9", "DFW", "c1", 500, some 500⟩ =
      .ok [⟨"y2", "N9", "DFW", "c1", 500, some 500⟩] :=
  ⟨(C3_amended_validation_behaviour.1 ⟨false, "DFW", "c1", "N9", "",
      noOverlapResult⟩ rfl).1,
   C3_amended_validation_behaviour.2.1 [] ⟨"y1", "N9", "DFW", "c1", 500,
      some 400⟩ 400 rfl (by decide),
   C3_amended_validation_behaviour.2.2.2 [] ⟨"y2", "N9", "DFW", "c1", 500,
      some 500⟩ rfl⟩

/-! ## Claim C8: serialized concurrent creates -/

/-- Claim C8: the overlap check and the write are one atomic step (the
database exclusion constraint), so for two creates of the same aircraft
with overlapping valid intervals that are each individually insertable,
either serialization order commits exactly the first and rejects the
second with an overlap conflict. -/
theorem C8_serialized_creates_one_success
    (σ : List DbRow) (a b : DbRow) (ra rb : PgRange)
    (htail : a.tail_number = b.tail_number)
    (hra : rowRange a = .ok ra) (hrb : rowRange b = .ok rb)
    (hov : rangeOverlap ra rb = true)
    (ha : dbInsert σ a = .ok (σ ++ [a]))
    (hb : dbInsert σ b = .ok (σ ++ [b])) :
    dbInsert (σ ++ [a]) b = .overlapConflict a ∧
    dbInsert (σ ++ [b]) a = .overlapConflict b := by
  have hfa : σ.find? (conflictsWith a) = none := by
    unfold dbInsert at ha
    rw [hra] at ha
    cases hf : σ.find? (conflictsWith a)
    · rfl
    · rw [hf] at ha
      exact absurd ha (by simp)
  have hfb : σ.find? (conflictsWith b) = none := by
    unfold dbInsert at hb
    rw [hrb] at hb
    cases hf : σ.find? (conflictsWith b)
    · rfl
    · rw [hf] at hb
      exact absurd hb (by simp)
  have hca : conflictsWith b a = true := by
    unfold conflictsWith
    rw [hra, hrb]
    simp [htail, hov]
  have hcb : conflictsWith a b = true := by
    unfold conflictsWith
    rw [hra, hrb]
    simp [htail, rangeOverlap_symm rb ra, hov]
  constructor
  · unfold dbInsert
    rw [hrb, find?_append_of_none [a] hfb, List.find?_cons_of_pos _ hca]
  · unfold dbInsert
    rw [hra, find?_append_of_none [b] hfa, List.find?_cons_of_pos _ hcb]

/-- Two overlapping valid rows of the same aircraft used as the C8
witness. -/
def c8RowA : DbRow := ⟨"w1", "N42", "DFW", "c1", 0, some 10⟩

/-- Second row of the C8 witness, open ended from instant 5. -/
def c8RowB : DbRow := ⟨"w2", "N42", "CLT", "c1", 5, none⟩

/-- Witness for C8: from the empty state, both serialization orders of
the two overlapping creates give one success and one conflict. -/
theorem C8_serialized_witness :
    dbInsert [c8RowA] c8RowB = .overlapConflict c8RowA ∧
    dbInsert [c8RowB] c8RowA = .overlapConflict c8RowB :=
  C8_serialized_creates_one_success [] c8RowA c8RowB
    (.interval 0 (some 10)) (.interval 5 none) rfl rfl rfl
    (by decide) (by decide) (by decide)

/-! ## Lemmas about the stable descending sort -/

/-- Membership is preserved by the stable insertion. -/
theorem mem_insertDescBy {α : Type} (key : α → Int) (x a : α) :
    ∀ l : List α, a ∈ insertDescBy key x l ↔ a = x ∨ a ∈ l := by
  intro l
  induction l with
  | nil => simp [insertDescBy]
  | cons y ys ih =>
    by_cases h : key y < key x
    · simp [insertDescBy, h]
    · simp only [insertDescBy, if_neg h, List.mem_cons, ih]
      tauto

/-- Membership is preserved by the sort. -/
theorem mem_sortDescBy {α : Type} {key : α → Int} {a : α} :
    ∀ {l : List α}, a ∈ sortDescBy key l ↔ a ∈ l := by
  intro l
  induction l with
  | nil => simp [sortDescBy]
  | cons y ys ih => simp [sortDescBy, mem_insertDescBy, ih]

/-- Length is preserved by the stable insertion. -/
theorem length_insertDescBy {α : Type} (key : α → Int) (x : α) :
    ∀ l : List α, (insertDescBy key x l).length = l.length + 1 := by
  intro l
  induction l with
  | nil => rfl
  | cons y ys ih => by_cases h : key y < key x <;> simp [insertDescBy, h, ih]

/-- Length is preserved by the sort. -/
theorem length_sortDescBy {α : Type} (key : α → Int) :
    ∀ l : List α, (sortDescBy key l).length = l.length := by
  intro l
  induction l with
  | nil => rfl
  | cons y ys ih => simp [sortDescBy, length_insertDescBy, ih]

/-- Sums of a projection are preserved by the stable insertion. -/
theorem sum_map_insertDescBy {α : Type} (key : α → Int) (f : α → Nat) (x : α) :
    ∀ l : List α, ((insertDescBy key x l).map f).sum = f x + (l.map f).sum := by
  intro l
  induction l with
  | nil => simp [insertDescBy]
  | cons y ys ih =>
    by_cases h : key y < key x <;> simp [insertDescBy, h, ih] <;> omega

/-- Sums of a projection are preserved by the sort. -/
theorem sum_map_sortDescBy {α : Type} (key : α → Int) (f : α → Nat) :
    ∀ l : List α, ((sortDescBy key l).map f).sum = (l.map f).sum := by
  intro l
  induction l with
  | nil => rfl
  | cons y ys ih => simp [sortDescBy, sum_map_insertDescBy, ih]

/-- The stable insertion keeps a descending list descending. -/
theorem pairwise_insertDescBy {α : Type} (key : α → Int) (x : α) :
    ∀ l : List α, List.Pairwise (fun u v => key v ≤ key u) l →
      List.Pairwise (fun u v => key v ≤ key u) (insertDescBy key x l) := by
  intro l hl
  induction l with
  | nil => simp [insertDescBy]
  | cons y ys ih =>
    rw [List.pairwise_cons] at hl
    obtain ⟨hy, hys⟩ := hl
    by_cases h : key y < key x
    · rw [insertDescBy, if_pos h, List.pairwise_cons]
      refine ⟨?_, List.pairwise_cons.mpr ⟨hy, hys⟩⟩
      intro z hz
      rcases List.mem_cons.mp hz with rfl | hz2
      · omega
      · have := hy z hz2
        omega
    · rw [insertDescBy, if_neg h, List.pairwise_cons]
      refine ⟨?_, ih hys⟩
      intro z hz
      rcases (mem_insertDescBy key x z ys).mp hz with rfl | hz2
      · omega
      · exact hy z hz2

/-- The sort produces a descending list. -/
theorem pairwise_sortDescBy {α : Type} (key : α → Int) :
    ∀ l : List α, List.Pairwise (fun u v => key v ≤ key u) (sortDescBy key l) := by
  intro l
  induction l with
  | nil => exact List.Pairwise.nil
  | cons y ys ih => exact pairwise_insertDescBy key y _ ih

/-! ## Claim C7: the range query returns exactly the overlapping rows -/

/-- The windowing filter, read as a proposition. -/
theorem rangeBaseFilter_iff (s e : Int) (a : DbRow) :
    rangeBaseFilter s e a = true ↔
      a.period_start < e ∧
        (a.period_end = none ∨ ∃ ee, a.period_end = some ee ∧ s < ee) := by
  unfold rangeBaseFilter
  cases hpe : a.period_end <;> simp [hpe]

/-- Claim C7: a view row is returned by the range query (with no
optional filters) iff period_start is below the window end and
period_end is null or above the window start; and for nonempty
intervals and a nonempty window, that predicate says exactly that the
allocation interval and the window share an instant. -/
theorem C7_range_query_exactly_overlapping :
    (∀ (db : Db) (s e : Int) (r : ViewRow),
        r ∈ useAllocationsInRange db s e noFilters ↔
          r ∈ viewRows db ∧ r.row.period_start < e ∧
            (r.row.period_end = none ∨
              ∃ ee, r.row.period_end = some ee ∧ s < ee)) ∧
    (∀ (s e ps : Int) (pe : Option Int),
        s < e → (∀ ee, pe = some ee → ps < ee) →
        ((ps < e ∧ (pe = none ∨ ∃ ee, pe = some ee ∧ s < ee)) ↔
          ∃ u : Int, (ps ≤ u ∧ (pe = none ∨ ∃ ee, pe = some ee ∧ u < ee)) ∧
            s ≤ u ∧ u < e)) := by
  constructor
  · intro db s e r
    unfold useAllocationsInRange
    rw [mem_sortDescBy, List.mem_filter]
    constructor
    · rintro ⟨hm, hf⟩
      obtain ⟨hb, -⟩ := (Bool.and_eq_true _ _).mp hf
      exact ⟨hm, (rangeBaseFilter_iff s e r.row).mp hb⟩
    · rintro ⟨hm, hp⟩
      refine ⟨hm, ?_⟩
      rw [(rangeBaseFilter_iff s e r.row).mpr hp]
      rfl
  · intro s e ps pe hse hwf
    constructor
    · rintro ⟨h1, h2⟩
      rcases h2 with h2 | ⟨ee, hee, hlt⟩
      · exact ⟨max ps s, ⟨le_max_left _ _, Or.inl h2⟩, le_max_right _ _,
          max_lt h1 hse⟩
      · exact ⟨max ps s, ⟨le_max_left _ _,
          Or.inr ⟨ee, hee, max_lt (hwf ee hee) hlt⟩⟩, le_max_right _ _,
          max_lt h1 hse⟩
    · rintro ⟨u, ⟨hpsu, hu2⟩, hsu, hue⟩
      refine ⟨by omega, ?_⟩
      rcases hu2 with h | ⟨ee, hee, hlt⟩
      · exact Or.inl h
      · exact Or.inr ⟨ee, hee, by omega⟩

/-- A one-row database used by the C7 witness. -/
def db7 : Db :=
  ⟨[⟨"v1", "N1", "DFW", "c1", 5, none⟩], [⟨"c1", "AA", "red"⟩],
   [⟨"DFW", "Dallas", 0, 0, none⟩], fun _ => 0⟩

/-- The view row of db7. -/
def r7 : ViewRow := ⟨⟨"v1", "N1", "DFW", "c1", 5, none⟩, "AA", "red", "Dallas", 0⟩

/-- Witness for C7: the open-ended row starting at 5 is returned for the
window from 0 to 10, and the predicate-to-intersection equivalence
produces a shared instant. -/
theorem C7_range_witness :
    r7 ∈ useAllocationsInRange db7 0 10 noFilters ∧
    ∃ u : Int, ((5:Int) ≤ u ∧ ((none : Option Int) = none ∨
        ∃ ee, (none : Option Int) = some ee ∧ u < ee)) ∧ (0:Int) ≤ u ∧ u < 10 :=
  ⟨(C7_range_query_exactly_overlapping.1 db7 0 10 r7).mpr
      ⟨by decide, by decide, Or.inl rfl⟩,
   (C7_range_query_exactly_overlapping.2 0 10 5 none (by decide)
      (fun ee h => by simp at h)).mp ⟨by decide, Or.inl rfl⟩⟩

/-! ## Lemmas about the JS Map model -/

/-- Reading a cons cell. -/
theorem mapGet_cons {β : Type} (k : String) (v : β) (rest : JsMap β)
    (s : String) :
    mapGet ((k, v) :: rest) s = if k == s then some v else mapGet rest s := by
  unfold mapGet
  cases hk : (k == s) <;> simp [List.find?_cons, hk]

/-- Reading back the key just set. -/
theorem mapGet_mapSet_self {β : Type} (m : JsMap β) (k : String) (v : β) :
    mapGet (mapSet m k v) k = some v := by
  induction m with
  | nil => simp [mapSet, mapGet_cons]
  | cons p rest ih =>
    obtain ⟨p1, p2⟩ := p
    by_cases hp : (p1 == k) = true
    · simp [mapSet, hp, mapGet_cons]
    · simp [mapSet, hp, mapGet_cons, ih]

/-- Setting one key leaves every other key unchanged. -/
theorem mapGet_mapSet_other {β : Type} (m : JsMap β) (k s : String) (v : β)
    (h : s ≠ k) :
    mapGet (mapSet m k v) s = mapGet m s := by
  have hks : (k == s) = false := beq_eq_false_iff_ne.mpr fun hh => h hh.symm
  induction m with
  | nil => simp [mapSet, mapGet_cons, hks, mapGet]
  | cons p rest ih =>
    by_cases hp : (p.1 == k) = true
    · have hpk : p.1 = k := eq_of_beq hp
      have hp1s : (p.1 == s) = false := by rw [hpk]; exact hks
      obtain ⟨p1, p2⟩ := p
      simp only at hp1s
      simp [mapSet, hp, mapGet_cons, hks, hp1s]
    · obtain ⟨p1, p2⟩ := p
      simp only at hp
      simp [mapSet, hp, mapGet_cons, ih]

/-- Setting any key preserves the presence of every present key. -/
theorem isSome_mapGet_mapSet {β : Type} (m : JsMap β) (k s : String) (v : β)
    (h : (mapGet m s).isSome = true) :
    (mapGet (mapSet m k v) s).isSome = true := by
  by_cases hs : s = k
  · subst hs
    rw [mapGet_mapSet_self]
    rfl
  · rw [mapGet_mapSet_other m k s v hs]
    exact h

/-- A key outside the key list reads as none. -/
theorem mapGet_eq_none_of_not_mem {β : Type} (m : JsMap β) (s : String)
    (h : s ∉ m.map (·.1)) : mapGet m s = none := by
  induction m with
  | nil => rfl
  | cons p rest ih =>
    obtain ⟨k, v⟩ := p
    simp only [List.map_cons, List.mem_cons, not_or] at h
    have hk : (k == s) = false := beq_eq_false_iff_ne.mpr fun hh => h.1 hh.symm
    rw [mapGet_cons, if_neg (by simp [hk])]
    exact ih h.2

/-! ## Lemmas about the initialisation pass -/

/-- The initialisation fold preserves present keys. -/
theorem isSome_initFold (airports : List Airport) :
    ∀ (m : JsMap AllocationSummary) (s : String),
      (mapGet m s).isSome = true →
      (mapGet (airports.foldl
        (fun m ap => mapSet m ap.iata_code (initialSummary ap)) m)
        s).isSome = true := by
  induction airports with
  | nil => intro m s h; exact h
  | cons ap rest ih =>
    intro m s h
    exact ih _ s (isSome_mapGet_mapSet _ _ _ _ h)

/-- Every airport of the list ends up as a key of the fold result. -/
theorem initFold_mem (airports : List Airport) :
    ∀ (m : JsMap AllocationSummary) (ap : Airport), ap ∈ airports →
      (mapGet (airports.foldl
        (fun m ap => mapSet m ap.iata_code (initialSummary ap)) m)
        ap.iata_code).isSome = true := by
  induction airports with
  | nil => intro m ap h; cases h
  | cons a rest ih =>
    intro m ap hm
    rw [List.foldl_cons]
    rcases List.mem_cons.mp hm with rfl | hm2
    · apply isSome_initFold
      rw [mapGet_mapSet_self]
      rfl
    · exact ih _ ap hm2

/-- Every value of the fold result is a zero summary, provided the
start map only held zero summaries. -/
theorem initFold_values (airports : List Airport) :
    ∀ m : JsMap AllocationSummary,
      (∀ (k : String) (s0 : AllocationSummary), mapGet m k = some s0 →
        s0.total_count = 0 ∧ s0.carrier_breakdown = []) →
      ∀ (k : String) (s0 : AllocationSummary),
        mapGet (airports.foldl
          (fun m ap => mapSet m ap.iata_code (initialSummary ap)) m) k =
            some s0 →
        s0.total_count = 0 ∧ s0.carrier_breakdown = [] := by
  induction airports with
  | nil => intro m hm k s0 h; exact hm k s0 h
  | cons a rest ih =>
    intro m hm k s0 h
    rw [List.foldl_cons] at h
    refine ih _ ?_ k s0 h
    intro k2 s2 h2
    by_cases hk : k2 = a.iata_code
    · subst hk
      rw [mapGet_mapSet_self] at h2
      cases h2
      exact ⟨rfl, rfl⟩
    · rw [mapGet_mapSet_other _ _ _ _ hk] at h2
      exact hm k2 s2 h2

/-! ## Lemmas about the aggregation maps -/

/-- Bumping a carrier adds one to the carrier map total. -/
theorem cmTotal_bumpCM (c : Carrier) :
    ∀ cm : CMap, cmTotal (bumpCM cm c) = cmTotal cm + 1 := by
  intro cm
  induction cm with
  | nil => rfl
  | cons e rest ih =>
    obtain ⟨k, c0, n⟩ := e
    by_cases hk : (k == c.id) = true
    · simp [bumpCM, hk, cmTotal]
      omega
    · simp [bumpCM, hk, cmTotal] at ih ⊢
      omega

/-- Reading the bumped station. -/
theorem mapGet_bumpSCC_same (s : String) (c : Carrier) :
    ∀ scc : SCC, mapGet (bumpSCC scc s c) s =
      some (bumpCM ((mapGet scc s).getD []) c) := by
  intro scc
  induction scc with
  | nil => simp [bumpSCC, mapGet_cons, mapGet]
  | cons p rest ih =>
    obtain ⟨k, cm⟩ := p
    by_cases hk : (k == s) = true
    · simp [bumpSCC, hk, mapGet_cons]
    · simp [bumpSCC, hk, mapGet_cons, ih]

/-- Bumping one station leaves every other station unchanged. -/
theorem mapGet_bumpSCC_other (s s2 : String) (c : Carrier) (h : s2 ≠ s) :
    ∀ scc : SCC, mapGet (bumpSCC scc s c) s2 = mapGet scc s2 := by
  have hss : (s == s2) = false := beq_eq_false_iff_ne.mpr fun hh => h hh.symm
  intro scc
  induction scc with
  | nil => simp [bumpSCC, mapGet_cons, hss, mapGet]
  | cons p rest ih =>
    obtain ⟨k, cm⟩ := p
    by_cases hk : (k == s) = true
    · have hk2 : k = s := eq_of_beq hk
      have hks2 : (k == s2) = false := by rw [hk2]; exact hss
      simp [bumpSCC, hk, mapGet_cons, hks2, hss]
    · simp [bumpSCC, hk, mapGet_cons, ih]

/-- The running total a station holds in a stationCarrierCounts map. -/
def sccTotal (scc : SCC) (s : String) : Nat :=
  cmTotal ((mapGet scc s).getD [])

/-- Bumping a station adds one to its total. -/
theorem sccTotal_bumpSCC_same (scc : SCC) (s : String) (c : Carrier) :
    sccTotal (bumpSCC scc s c) s = sccTotal scc s + 1 := by
  unfold sccTotal
  rw [mapGet_bumpSCC_same]
  simp [cmTotal_bumpCM]

/-- Bumping a station leaves other totals unchanged. -/
theorem sccTotal_bumpSCC_other (scc : SCC) (s s2 : String) (c : Carrier)
    (h : s2 ≠ s) : sccTotal (bumpSCC scc s c) s2 = sccTotal scc s2 := by
  unfold sccTotal
  rw [mapGet_bumpSCC_other s s2 c h]

/-- The aggregation fold counts, per station, exactly the processed
allocations at that station whose carrier join succeeded. -/
theorem sccTotal_foldl (db : Db) (s : String) :
    ∀ (l : List DbRow) (acc : SCC),
      sccTotal (l.foldl (sccStep db) acc) s =
        sccTotal acc s +
          (l.filter fun a =>
            a.station_iata == s && (carrierOf db a).isSome).length := by
  intro l
  induction l with
  | nil => intro acc; simp
  | cons a l ih =>
    intro acc
    rw [List.foldl_cons, ih]
    cases hc : carrierOf db a with
    | none =>
      have hlen : (List.filter
          (fun x => x.station_iata == s && (carrierOf db x).isSome)
          (a :: l)).length =
          (List.filter (fun x => x.station_iata == s && (carrierOf db x).isSome)
            l).length := by
        simp [List.filter_cons, hc]
      rw [hlen]
      simp [sccStep, hc]
    | some c =>
      by_cases hs : a.station_iata = s
      · have hb : (a.station_iata == s) = true := beq_iff_eq.mpr hs
        have hlen : (List.filter
            (fun x => x.station_iata == s && (carrierOf db x).isSome)
            (a :: l)).length =
            (List.filter (fun x => x.station_iata == s &&
              (carrierOf db x).isSome) l).length + 1 := by
          simp [List.filter_cons, hb, hc]
        rw [hlen]
        simp only [sccStep, hc]
        rw [hs, sccTotal_bumpSCC_same]
        omega
      · have hb : (a.station_iata == s) = false := beq_eq_false_iff_ne.mpr hs
        have hlen : (List.filter
            (fun x => x.station_iata == s && (carrierOf db x).isSome)
            (a :: l)).length =
            (List.filter (fun x => x.station_iata == s &&
              (carrierOf db x).isSome) l).length := by
          simp [List.filter_cons, hb]
        rw [hlen]
        simp only [sccStep, hc]
        rw [sccTotal_bumpSCC_other acc a.station_iata s c fun hh => hs hh.symm]

/-- The key list of a stationCarrierCounts map. -/
def sccKeys (scc : SCC) : List String := scc.map (·.1)

/-- Keys of a bumped map come from the old map or are the bumped
station. -/
theorem mem_sccKeys_bumpSCC (s k : String) (c : Carrier) :
    ∀ scc : SCC, k ∈ sccKeys (bumpSCC scc s c) → k ∈ sccKeys scc ∨ k = s := by
  intro scc
  induction scc with
  | nil =>
    intro h
    simp [bumpSCC, sccKeys] at h
    exact Or.inr h
  | cons p rest ih =>
    obtain ⟨kk, cm⟩ := p
    intro h
    by_cases hk : (kk == s) = true
    · have hb : bumpSCC ((kk, cm) :: rest) s c = (kk, bumpCM cm c) :: rest := by
        simp [bumpSCC, hk]
      rw [hb, sccKeys, List.map_cons] at h
      rw [sccKeys, List.map_cons]
      rcases List.mem_cons.mp h with h1 | h1
      · exact Or.inl (List.mem_cons.mpr (Or.inl h1))
      · exact Or.inl (List.mem_cons.mpr (Or.inr h1))
    · have hb : bumpSCC ((kk, cm) :: rest) s c =
          (kk, cm) :: bumpSCC rest s c := by
        simp [bumpSCC, hk]
      rw [hb, sccKeys, List.map_cons] at h
      rw [sccKeys, List.map_cons]
      rcases List.mem_cons.mp h with h1 | h1
      · exact Or.inl (List.mem_cons.mpr (Or.inl h1))
      · rcases ih h1 with h2 | h2
        · exact Or.inl (List.mem_cons.mpr (Or.inr (by
            rw [sccKeys] at h2
            exact h2)))
        · exact Or.inr h2

/-- Bumping preserves distinctness of the station keys. -/
theorem nodup_sccKeys_bumpSCC (s : String) (c : Carrier) :
    ∀ scc : SCC, (sccKeys scc).Nodup → (sccKeys (bumpSCC scc s c)).Nodup := by
  intro scc
  induction scc with
  | nil =>
    intro h
    simp [bumpSCC, sccKeys]
  | cons p rest ih =>
    obtain ⟨kk, cm⟩ := p
    intro h
    rw [sccKeys, List.map_cons, List.nodup_cons] at h
    obtain ⟨hnot, hnd⟩ := h
    by_cases hk : (kk == s) = true
    · have hb : bumpSCC ((kk, cm) :: rest) s c = (kk, bumpCM cm c) :: rest := by
        simp [bumpSCC, hk]
      rw [hb, sccKeys, List.map_cons, List.nodup_cons]
      exact ⟨hnot, hnd⟩
    · have hb : bumpSCC ((kk, cm) :: rest) s c =
          (kk, cm) :: bumpSCC rest s c := by
        simp [bumpSCC, hk]
      rw [hb, sccKeys, List.map_cons, List.nodup_cons]
      refine ⟨?_, ?_⟩
      · intro hmem
        rcases mem_sccKeys_bumpSCC s kk c rest hmem with h2 | h2
        · exact hnot (by rw [sccKeys] at h2; exact h2)
        · rw [h2] at hk
          simp at hk
      · have := ih hnd
        rw [sccKeys] at this
        exact this

/-- The aggregation always produces distinct station keys. -/
theorem nodup_sccKeys_buildSCC (db : Db) (t : Int) :
    (sccKeys (buildSCC db t)).Nodup := by
  have H : ∀ (l : List DbRow) (acc : SCC), (sccKeys acc).Nodup →
      (sccKeys (l.foldl (sccStep db) acc)).Nodup := by
    intro l
    induction l with
    | nil => intro acc h; exact h
    | cons a l ih =>
      intro acc h
      apply ih
      unfold sccStep
      cases carrierOf db a
      · exact h
      · exact nodup_sccKeys_bumpSCC _ _ acc h
  exact H _ [] (by simp [sccKeys])

/-- Unchanged stations keep their summary through one update. -/
theorem mapGet_applyStationCounts_other (m : JsMap AllocationSummary)
    (s s2 : String) (cm : CMap) (h : s2 ≠ s) :
    mapGet (applyStationCounts m s cm) s2 = mapGet m s2 := by
  unfold applyStationCounts
  cases mapGet m s
  · rfl
  · exact mapGet_mapSet_other m s s2 _ h

/-- The second forEach, characterised pointwise: a station found in the
aggregation and in the summary map receives the updated summary; every
other key keeps its initial value. -/
theorem mapGet_applyFold :
    ∀ (scc : SCC) (m : JsMap AllocationSummary) (s : String),
      (sccKeys scc).Nodup →
      mapGet (scc.foldl (fun m p => applyStationCounts m p.1 p.2) m) s =
        match mapGet scc s with
        | some cm =>
          match mapGet m s with
          | some summ => some (updateSummary summ cm)
          | none => none
        | none => mapGet m s := by
  intro scc
  induction scc with
  | nil => intro m s h; rfl
  | cons p rest ih =>
    intro m s hnd
    obtain ⟨k, cm0⟩ := p
    rw [sccKeys, List.map_cons, List.nodup_cons] at hnd
    obtain ⟨hknot, hnd2⟩ := hnd
    rw [List.foldl_cons, ih (applyStationCounts m k cm0) s hnd2]
    by_cases hs : s = k
    · subst hs
      have hrest : mapGet rest s = none :=
        mapGet_eq_none_of_not_mem rest s hknot
      have hhead : mapGet ((s, cm0) :: rest) s = some cm0 := by
        rw [mapGet_cons]
        simp
      rw [hrest, hhead]
      cases hm : mapGet m s with
      | none => simp [applyStationCounts, hm]
      | some summ => simp [applyStationCounts, hm, mapGet_mapSet_self]
    · have h1 : mapGet ((k, cm0) :: rest) s = mapGet rest s := by
        rw [mapGet_cons]
        have : (k == s) = false := beq_eq_false_iff_ne.mpr fun hh => hs hh.symm
        simp [this]
      have h2 : mapGet (applyStationCounts m k cm0) s = mapGet m s :=
        mapGet_applyStationCounts_other m k s cm0 hs
      rw [h1, h2]

/-- Stations recorded by the aggregation all come from processed
allocations. -/
theorem buildSCC_station_origin (db : Db) (s : String) :
    ∀ (l : List DbRow) (acc : SCC),
      mapGet (l.foldl (sccStep db) acc) s ≠ none →
      mapGet acc s ≠ none ∨ ∃ a, a ∈ l ∧ a.station_iata = s := by
  intro l
  induction l with
  | nil => intro acc h; exact Or.inl h
  | cons a l ih =>
    intro acc h
    rcases ih (sccStep db acc a) h with h2 | ⟨b, hb, hbs⟩
    · unfold sccStep at h2
      cases hc : carrierOf db a with
      | none =>
        rw [hc] at h2
        exact Or.inl h2
      | some c =>
        rw [hc] at h2
        by_cases hs : a.station_iata = s
        · exact Or.inr ⟨a, List.mem_cons_self a l, hs⟩
        · rw [mapGet_bumpSCC_other _ _ _ (fun hh => hs hh.symm)] at h2
          exact Or.inl h2
    · exact Or.inr ⟨b, List.mem_cons_of_mem a hb, hbs⟩

/-- The summary entry of any station: its total counts exactly the
active allocations of that station whose carrier join succeeded, the
total equals the breakdown sum, the breakdown is sorted by count
descending, and a station missing from the aggregation keeps the zero
summary. -/
theorem summary_entry_spec (db : Db) (t : Int) (s : String)
    (summ : AllocationSummary)
    (h : mapGet (useAllocationSummary db t) s = some summ) :
    summ.total_count = ((db.allocations.filter (summaryActiveFilter t)).filter
        fun a => a.station_iata == s && (carrierOf db a).isSome).length ∧
    summ.total_count = (summ.carrier_breakdown.map (fun b => b.count)).sum ∧
    List.Pairwise (fun u v => v.count ≤ u.count) summ.carrier_breakdown ∧
    (mapGet (buildSCC db t) s = none →
      summ.total_count = 0 ∧ summ.carrier_breakdown = []) := by
  unfold useAllocationSummary at h
  rw [mapGet_applyFold (buildSCC db t) (initSummaryMap db.airports) s
    (nodup_sccKeys_buildSCC db t)] at h
  have hcount : sccTotal (buildSCC db t) s =
      ((db.allocations.filter (summaryActiveFilter t)).filter
        fun a => a.station_iata == s && (carrierOf db a).isSome).length := by
    unfold buildSCC
    rw [sccTotal_foldl]
    simp [sccTotal, mapGet, cmTotal]
  cases hscc : mapGet (buildSCC db t) s with
  | none =>
    rw [hscc] at h
    have hinit := initFold_values db.airports []
      (by intro k s0 hk; simp [mapGet] at hk) s summ (by
        unfold initSummaryMap at h
        exact h)
    obtain ⟨h0, hb⟩ := hinit
    refine ⟨?_, ?_, ?_, fun _ => ⟨h0, hb⟩⟩
    · rw [h0, ← hcount]
      unfold sccTotal
      rw [hscc]
      rfl
    · rw [h0, hb]
      rfl
    · rw [hb]
      exact List.Pairwise.nil
  | some cm =>
    rw [hscc] at h
    cases hinit : mapGet (initSummaryMap db.airports) s with
    | none =>
      rw [hinit] at h
      cases h
    | some s0 =>
      rw [hinit] at h
      injection h with h
      subst h
      refine ⟨?_, ?_, ?_, ?_⟩
      · rw [← hcount]
        unfold sccTotal
        rw [hscc]
        rfl
      · show cmTotal cm = ((sortDescBy (fun b => Int.ofNat b.count)
          (cmBreakdown cm)).map (fun b => b.count)).sum
        rw [sum_map_sortDescBy]
        unfold cmBreakdown cmTotal
        rw [List.map_map]
        rfl
      · have hp := pairwise_sortDescBy
          (fun b : CarrierBreakdown => Int.ofNat b.count) (cmBreakdown cm)
        refine hp.imp ?_
        intro u v huv
        exact Int.ofNat_le.mp huv
      · intro hnone
        cases hnone

/-- Every airport of the table keys the summary map. -/
theorem summary_airport_key (db : Db) (t : Int) (ap : Airport)
    (hap : ap ∈ db.airports) :
    (mapGet (useAllocationSummary db t) ap.iata_code).isSome = true := by
  have hinit : (mapGet (initSummaryMap db.airports) ap.iata_code).isSome =
      true := initFold_mem db.airports [] ap hap
  unfold useAllocationSummary
  rw [mapGet_applyFold _ _ _ (nodup_sccKeys_buildSCC db t)]
  cases hscc : mapGet (buildSCC db t) ap.iata_code with
  | none => exact hinit
  | some cm =>
    cases hinit2 : mapGet (initSummaryMap db.airports) ap.iata_code with
    | none =>
      rw [hinit2] at hinit
      simp at hinit
    | some s0 => rfl

/-! ## Claims C4 and C10: aggregation consistency and invariants -/

/-- The station query counts exactly the allocations at the station
passing both joins and the active filter. -/
theorem useStationAllocations_length (db : Db) (s : String) (t : Int) :
    (useStationAllocations db s t).length =
      (db.allocations.filter fun a =>
        (carrierOf db a).isSome && (airportOf db a.station_iata).isSome &&
          (a.station_iata == s) && stationActiveFilter t a).length := by
  unfold useStationAllocations viewRows
  rw [length_sortDescBy]
  have H : ∀ l : List DbRow,
      ((l.filterMap (viewRowOf db)).filter fun r =>
        r.row.station_iata == s && stationActiveFilter t r.row).length =
      (l.filter fun a =>
        (carrierOf db a).isSome && (airportOf db a.station_iata).isSome &&
          (a.station_iata == s) && stationActiveFilter t a).length := by
    intro l
    induction l with
    | nil => rfl
    | cons a l ih =>
      rw [List.filterMap_cons]
      cases hc : carrierOf db a with
      | none =>
        have hv : viewRowOf db a = none := by
          unfold viewRowOf
          rw [hc]
        rw [hv, List.filter_cons]
        simp [hc, ih]
      | some c =>
        cases hap : airportOf db a.station_iata with
        | none =>
          have hv : viewRowOf db a = none := by
            unfold viewRowOf
            rw [hc, hap]
          rw [hv, List.filter_cons]
          simp [hc, hap, ih]
        | some ap =>
          have hv : viewRowOf db a =
              some ⟨a, c.name, c.color, ap.name, db.groundTimeMinutes a⟩ := by
            unfold viewRowOf
            rw [hc, hap]
          rw [hv, List.filter_cons, List.filter_cons]
          cases hq : (a.station_iata == s && stationActiveFilter t a) with
          | false => simp [hc, hap, hq, ih]
          | true => simp [hc, hap, hq, ih]
  exact H db.allocations

/-- Claim C4: the two hooks apply the identical active-at-T filter,
that filter says exactly period_start at or before T and period_end
null or after T, and consequently the summary count of a station in the
airports table equals the length of the station query result at the
same instant. -/
theorem C4_point_in_time_consistency :
    (∀ (t : Int) (a : DbRow), summaryActiveFilter t a = stationActiveFilter t a) ∧
    (∀ (t : Int) (a : DbRow),
        summaryActiveFilter t a = true ↔
          a.period_start ≤ t ∧
            (a.period_end = none ∨ ∃ e, a.period_end = some e ∧ t < e)) ∧
    (∀ (db : Db) (t : Int) (s : String) (summ : AllocationSummary),
        (airportOf db s).isSome = true →
        mapGet (useAllocationSummary db t) s = some summ →
        summ.total_count = (useStationAllocations db s t).length) := by
  refine ⟨fun t a => rfl, ?_, ?_⟩
  · intro t a
    unfold summaryActiveFilter
    cases hpe : a.period_end <;> simp [hpe]
  · intro db t s summ hap h
    obtain ⟨h1, -, -, -⟩ := summary_entry_spec db t s summ h
    rw [h1, useStationAllocations_length]
    rw [List.filter_filter]
    have hpt : ∀ a ∈ db.allocations,
        (a.station_iata == s && (carrierOf db a).isSome &&
          summaryActiveFilter t a) =
        ((carrierOf db a).isSome && (airportOf db a.station_iata).isSome &&
          (a.station_iata == s) && stationActiveFilter t a) := by
      intro a ha
      cases hb : (a.station_iata == s) with
      | false => simp [hb]
      | true =>
        have hs : a.station_iata = s := eq_of_beq hb
        have hap2 : (airportOf db a.station_iata).isSome = true := by
          rw [hs]
          exact hap
        rw [hap2]
        show ((true && (carrierOf db a).isSome) && summaryActiveFilter t a) = _
        cases hcs : (carrierOf db a).isSome <;>
          cases hact : summaryActiveFilter t a <;> simp [hb] <;> exact hact
    rw [List.filter_congr hpt]

/-- A one-airport, one-carrier, one-allocation database used by the C4
and C10 witnesses. -/
def db4 : Db :=
  ⟨[⟨"a1", "N1", "DFW", "c1", 0, none⟩], [⟨"c1", "AA", "red"⟩],
   [⟨"DFW", "Dallas", 0, 0, none⟩], fun _ => 7⟩

/-- The summary db4 produces for DFW at instant 5. -/
def summ4 : AllocationSummary :=
  ⟨"DFW", 1, [⟨"c1", "AA", "red", 1⟩], "Dallas", 0, 0, none⟩

/-- Witness for C4: on db4 at instant 5, the DFW summary count equals
the station query length. -/
theorem C4_consistency_witness :
    summ4.total_count = (useStationAllocations db4 "DFW" 5).length :=
  C4_point_in_time_consistency.2.2 db4 5 "DFW" summ4 (by decide) (by decide)

/-- Claim C10: every airport keys the summary map; each entry has its
total equal to the sum of its breakdown counts; the breakdown is sorted
by count descending; the total counts exactly the active allocations of
the station whose carrier join succeeded (carrier-less allocations are
excluded); and a station with no active allocation keeps the zero
summary. -/
theorem C10_summary_invariants (db : Db) (t : Int) :
    (∀ ap ∈ db.airports,
        (mapGet (useAllocationSummary db t) ap.iata_code).isSome = true) ∧
    (∀ (s : String) (summ : AllocationSummary),
        mapGet (useAllocationSummary db t) s = some summ →
        summ.total_count = (summ.carrier_breakdown.map (fun b => b.count)).sum ∧
        List.Pairwise (fun u v => v.count ≤ u.count) summ.carrier_breakdown ∧
        summ.total_count =
          ((db.allocations.filter (summaryActiveFilter t)).filter fun a =>
            a.station_iata == s && (carrierOf db a).isSome).length ∧
        ((∀ a ∈ db.allocations,
            ¬(summaryActiveFilter t a = true ∧ a.station_iata = s)) →
          summ.total_count = 0 ∧ summ.carrier_breakdown = [])) := by
  refine ⟨fun ap hap => summary_airport_key db t ap hap, ?_⟩
  intro s summ h
  obtain ⟨h1, h2, h3, h4⟩ := summary_entry_spec db t s summ h
  refine ⟨h2, h3, h1, ?_⟩
  intro hno
  apply h4
  cases hscc : mapGet (buildSCC db t) s with
  | none => rfl
  | some cm =>
    exfalso
    have hne : mapGet (buildSCC db t) s ≠ none := by
      rw [hscc]
      simp
    unfold buildSCC at hne
    rcases buildSCC_station_origin db s _ [] hne with h5 | ⟨a, ha, has⟩
    · exact h5 rfl
    · obtain ⟨hmem, hact⟩ := List.mem_filter.mp ha
      exact hno a hmem ⟨hact, has⟩

/-- Witness for C10 on db4 at instant 5. -/
theorem C10_summary_witness :
    (mapGet (useAllocationSummary db4 5) "DFW").isSome = true ∧
    summ4.total_count = (summ4.carrier_breakdown.map (fun b => b.count)).sum :=
  ⟨(C10_summary_invariants db4 5).1 ⟨"DFW", "Dallas", 0, 0, none⟩ (by decide),
   ((C10_summary_invariants db4 5).2 "DFW" summ4 (by decide)).1⟩

end AircraftAlloc
